import Mathlib

/-!
Verification of the vote-cart transaction planner and batch executor of the
Overmind Founders Collection web app.

The TypeScript sources are embedded shallowly:
* `bigint` wei amounts, share counts and curve ids become `Nat` (all on-chain
  quantities are unsigned);
* fallible chain reads become explicit `Except`/`Option` arguments so the
  pure decision logic can be analysed separately from transport;
* JavaScript `Map` insertion-order semantics become insertion-ordered
  association lists.

Every definition is translated from the repository's code, except where a
doc comment says `Modelled from the spec:` because the implementation file
is absent and only its unit tests or callers are available.
-/

namespace Overmind

/-! ## Batch planning: transaction counting
Embeds `calculateTotalTransactions` and `TransactionCountParams` from
`apps/web/src/hooks/blockchain/batch/utils.ts`. -/

structure TransactionCountParams where
  hasNewTotems : Bool
  hasNewTriples : Bool
  hasRedeems : Bool
  hasExistingTriples : Bool
  isLinearForOnly : Bool
  uninitializedProgressiveAgainstCount : Nat
deriving DecidableEq, Repr

def calculateTotalTransactions (params : TransactionCountParams) : Nat :=
  let steps := 0
  -- new totems: 2 tx (createAtoms + createTriples with deposit)
  let steps := if params.hasNewTotems then steps + 2 else steps
  -- new triples: pure Linear FOR folds the deposit into createTriples (1 tx),
  -- progressive or mixed needs createTriples + depositBatch (2 tx)
  let steps :=
    if params.hasNewTriples then
      if params.isLinearForOnly then steps + 1 else steps + 2
    else steps
  -- redeems (position change): 1 tx
  let steps := if params.hasRedeems then steps + 1 else steps
  -- deposits on existing triples: 3 tx when an oppose-progressive vault is
  -- uninitialized (init + redeem + deposit), otherwise 1 tx
  let steps :=
    if params.hasExistingTriples then
      if params.uninitializedProgressiveAgainstCount > 0 then steps + 3 else steps + 1
    else steps
  max 1 steps

/-- The step-count formula as the specification writes it:
`steps = 2*hasNewTotems + (1|2)*hasNewTriples + 1*hasRedeems + (3|1)*hasExistingTripleDeposits`,
clamped below by 1. -/
def specTotalSteps (params : TransactionCountParams) : Nat :=
  max
    ((if params.hasNewTotems then 2 else 0)
      + (if params.hasNewTriples then (if params.isLinearForOnly then 1 else 2) else 0)
      + (if params.hasRedeems then 1 else 0)
      + (if params.hasExistingTriples then
          (if 0 < params.uninitializedProgressiveAgainstCount then 3 else 1) else 0))
    1

/-! ## AmountMath: slippage and auto-adjustment -/

/-- Modelled from the spec: `applySlippage` is exported by
`apps/web/src/hooks/blockchain/batch/utils.ts` and exercised by
`utils.test.ts`, but the implementation part of that module is not present
under `src/`. Per the spec it returns
`expected * (10000 - toleranceBps) / 10000` with integer division
truncating toward zero. -/
def applySlippage (expected : Nat) (toleranceBps : Nat) : Nat :=
  expected * (10000 - toleranceBps) / 10000

/-- Embeds `autoAdjustAmount` from
`apps/web/src/hooks/blockchain/batch/utils.ts`. The constant
`BATCH_VOTE_CONSTANTS.TOLERANCE_WEI` lives in `batch/types.ts`, which is not
present under `src/`; the tolerance is therefore taken as a parameter, which
is also how the spec treats it (a policy constant, not a protocol
invariant). The `itemName` argument is only used for logging in the source
and is kept for signature fidelity. -/
def autoAdjustAmount (toleranceWei : Nat) (amount : Nat) (minRequiredAmount : Nat)
    (itemName : String) : Nat :=
  if amount < minRequiredAmount then
    let missing := minRequiredAmount - amount
    if missing ≤ toleranceWei then
      minRequiredAmount
    else amount
  else amount

/-! ## VaultInitGate: `checkVaultInitialized`
Embeds `checkVaultInitialized` from
`apps/web/src/hooks/blockchain/batch/utils.ts`. The `getVault` contract read
returns `[totalAssets, totalShares]`; a failed read is the `.error` case. -/

def checkVaultInitialized (vaultRead : Except Unit (Nat × Nat)) : Bool :=
  match vaultRead with
  | .ok result => result.2 > 0
  | .error _ => false

/-! ## CurveAvailabilityResolver
Embeds `useCurveAvailability` from `apps/web/src/hooks/vote/useCurveAvailability.ts`.
The curve ids come from the hooks barrel (`CURVE_LINEAR = 1`,
`CURVE_PROGRESSIVE = 2`, as documented in the hook's header comment and used
literally in `categorizeTriples`). The `t(...)` i18n lookup is embedded as a
constructor carrying the translation parameters. -/

def CURVE_LINEAR : Nat := 1
def CURVE_PROGRESSIVE : Nat := 2

inductive VoteDir where
  | forD
  | againstD
  | withdrawD
deriving DecidableEq, Repr

inductive ItemDirection where
  | forD
  | againstD
deriving DecidableEq, Repr

inductive ReqDirection where
  | support
  | oppose
deriving DecidableEq, Repr

structure VoteCartEntry where
  totemId : String
  direction : ItemDirection
  curveId : Nat
deriving DecidableEq, Repr

structure VoteCart where
  items : List VoteCartEntry
deriving DecidableEq, Repr

/-- Parameters of the `blockedReason` i18n message, in the order they are
passed to `t(...)` in the source. -/
inductive BlockedReason where
  | bothCurves (oppositeDirection curves source currentDirection : String)
  | singleCurve (oppositeDirection blockedCurve source freeCurve : String)
deriving DecidableEq, Repr

structure CurveAvailability where
  linear : Bool
  progressive : Bool
  blockedReason : Option BlockedReason
  allBlocked : Bool
deriving DecidableEq, Repr

structure UseCurveAvailabilityParams where
  voteDirection : Option VoteDir
  hasForPositionLinear : Bool
  hasForPositionProgressive : Bool
  hasAgainstPositionLinear : Bool
  hasAgainstPositionProgressive : Bool
  cart : Option VoteCart
  selectedTotemId : Option String
deriving DecidableEq, Repr

def useCurveAvailability (p : UseCurveAvailabilityParams) : CurveAvailability :=
  let direction : Option ReqDirection :=
    match p.voteDirection with
    | some .forD => some .support
    | some .againstD => some .oppose
    | _ => none
  -- no blocking for withdraw mode or if no direction selected
  match direction with
  | none => ⟨true, true, none, false⟩
  | some dir =>
    -- per-curve blocking by existing positions: wanting Support blocks only
    -- the curve where an Oppose position exists, and vice versa
    let linearBlockedByPosition :=
      match dir with
      | .support => p.hasAgainstPositionLinear
      | .oppose => p.hasForPositionLinear
    let progressiveBlockedByPosition :=
      match dir with
      | .support => p.hasAgainstPositionProgressive
      | .oppose => p.hasForPositionProgressive
    -- per-curve blocking by cart items (same logic, per curve); the source's
    -- mutable-flag loop over the filtered cart is an `any` over that list
    let cartItemsForTotem : List VoteCartEntry :=
      match p.cart, p.selectedTotemId with
      | some cart, some totemId => cart.items.filter (fun item => item.totemId == totemId)
      | _, _ => []
    let isOpposite : VoteCartEntry → Bool := fun item =>
      (dir == .support && item.direction == .againstD)
        || (dir == .oppose && item.direction == .forD)
    let linearBlockedByCart :=
      cartItemsForTotem.any (fun item => isOpposite item && item.curveId == CURVE_LINEAR)
    let progressiveBlockedByCart :=
      cartItemsForTotem.any (fun item => isOpposite item && item.curveId == CURVE_PROGRESSIVE)
    let linearBlocked := linearBlockedByPosition || linearBlockedByCart
    let progressiveBlocked := progressiveBlockedByPosition || progressiveBlockedByCart
    let allBlocked := linearBlocked && progressiveBlocked
    -- build the blocked-reason message
    let blockedReason : Option BlockedReason :=
      if linearBlocked || progressiveBlocked then
        let oppositeDirection := if dir == .support then "Oppose" else "Support"
        let currentDirection := if dir == .support then "Support" else "Oppose"
        let hasCartBlocking := linearBlockedByCart || progressiveBlockedByCart
        let source := if hasCartBlocking then " (panier inclus)" else ""
        let blockedCurves : List String :=
          (if linearBlocked then ["Linear"] else [])
            ++ (if progressiveBlocked then ["Progressive"] else [])
        if allBlocked then
          some (.bothCurves oppositeDirection
            (String.intercalate " + " blockedCurves) source currentDirection)
        else
          let freeCurve := if linearBlocked then "Progressive" else "Linear"
          some (.singleCurve oppositeDirection (blockedCurves.headD "") source freeCurve)
      else none
    ⟨!linearBlocked, !progressiveBlocked, blockedReason, allBlocked⟩

/-- The spec's notion of "the curve carries an opposite-direction on-chain
position" for the requested direction. -/
def hasOppositePositionOn (p : UseCurveAvailabilityParams) (dir : ReqDirection)
    (curve : Nat) : Bool :=
  if curve == CURVE_LINEAR then
    match dir with
    | .support => p.hasAgainstPositionLinear
    | .oppose => p.hasForPositionLinear
  else
    match dir with
    | .support => p.hasAgainstPositionProgressive
    | .oppose => p.hasForPositionProgressive

/-- The spec's notion of "the cart holds an opposite-direction item for the
selected totem on this curve". -/
def hasOppositeCartItemOn (p : UseCurveAvailabilityParams) (dir : ReqDirection)
    (curve : Nat) : Bool :=
  match p.cart, p.selectedTotemId with
  | some cart, some totemId =>
    cart.items.any (fun item =>
      item.totemId == totemId
        && ((dir == .support && item.direction == .againstD)
          || (dir == .oppose && item.direction == .forD))
        && item.curveId == curve)
  | _, _ => false

/-- The requested direction the hook derives from the UI vote direction. -/
def requestedDirection (voteDirection : Option VoteDir) : Option ReqDirection :=
  match voteDirection with
  | some .forD => some .support
  | some .againstD => some .oppose
  | _ => none

/-! ## TripleDeduplicator
Embeds `deduplicateToTriples` from
`apps/web/src/hooks/blockchain/batch/utils.ts`. Cart items are keyed by the
string `predicateId + "_" + totemId`; the JavaScript `Map` (insertion
ordered, in-place update of an existing key) is embedded as an
insertion-ordered association list, with `insertTripleItem` playing the
`has`/`get`+`push`/`set` step of the loop body. The item type
`ProcessableCartItem` carries the fields the batch modules read (its
declaring file `batch/types.ts` is not present under `src/`). -/

structure CurrentPosition where
  direction : ItemDirection
  curveId : Nat
  shares : Nat
deriving DecidableEq, Repr

structure ProcessableCartItem where
  predicateId : String
  totemId : String
  totemName : String
  curveId : Nat
  termId : String
  counterTermId : String
  currentPosition : Option CurrentPosition
deriving DecidableEq, Repr

structure UniqueTriple where
  predicateId : String
  totemId : String
  totemName : String
  items : List ProcessableCartItem
deriving DecidableEq, Repr

/-- The map key used by `deduplicateToTriples`. -/
def tripleKey (item : ProcessableCartItem) : String :=
  item.predicateId ++ "_" ++ item.totemId

/-- One iteration of the deduplication loop: append the item to the group
with its key if present (same triple, different curve), otherwise add a new
group at the end — exactly a JavaScript `Map` update. -/
def insertTripleItem (item : ProcessableCartItem) :
    List (String × UniqueTriple) → List (String × UniqueTriple)
  | [] => [(tripleKey item, ⟨item.predicateId, item.totemId, item.totemName, [item]⟩)]
  | kv :: rest =>
    if kv.1 == tripleKey item then
      (kv.1, { kv.2 with items := kv.2.items ++ [item] }) :: rest
    else
      kv :: insertTripleItem item rest

def deduplicateToTriples (founderId : String)
    (items : List ProcessableCartItem) : List (String × UniqueTriple) :=
  items.foldl (fun acc item => insertTripleItem item acc) []

/-- Keys in order of first appearance — the spec's description of the
output map's iteration order. -/
def firstAppearanceKeys (keys : List String) : List String :=
  keys.foldl (fun acc k => if k ∈ acc then acc else acc ++ [k]) []

/-- The per-group key invariant of the deduplicated map: every item stored
in a group has that group's key. -/
def itemsMatchKey (l : List (String × UniqueTriple)) : Prop :=
  ∀ kv ∈ l, ∀ y ∈ kv.2.items, tripleKey y = kv.1

/-! ## BatchPlanner: chunking parallel call arrays
`chunkArray` and `chunkBatchArrays` are exported by
`apps/web/src/hooks/blockchain/batch/utils.ts` and exercised by
`utils.test.ts`, but the implementation part of that module is not present
under `src/`; both are modelled from the spec. -/

/-- Modelled from the spec: `chunkArray` splits a list into consecutive
chunks of at most `size` elements; an empty input yields an empty chunk
list. A chunk size of zero also yields the empty list so the recursion is
total (the spec only speaks of positive chunk sizes). -/
def chunkArray {α : Type} (xs : List α) (size : Nat) : List (List α) :=
  if h : xs.length = 0 ∨ size = 0 then []
  else xs.take size :: chunkArray (xs.drop size) size
termination_by xs.length
decreasing_by
  push_neg at h
  obtain ⟨hx, hs⟩ := h
  simp only [List.length_drop]
  omega

/-- One chunk of the four parallel batch-call arrays. -/
structure BatchChunk where
  termIds : List String
  curveIds : List Nat
  values : List Nat
  minValues : List Nat
deriving DecidableEq, Repr

/-- Modelled from the spec: `chunkBatchArrays` splits the four parallel
arrays `(termIds, curveIds, values, minValues)` into same-length chunks of
at most `maxChunkSize` elements, preserving index correspondence; an empty
input yields an empty chunk list. -/
def chunkBatchArrays (termIds : List String) (curveIds : List Nat)
    (values : List Nat) (minValues : List Nat) (maxChunkSize : Nat) :
    List BatchChunk :=
  if h : termIds = [] ∨ maxChunkSize = 0 then []
  else
    ⟨termIds.take maxChunkSize, curveIds.take maxChunkSize,
      values.take maxChunkSize, minValues.take maxChunkSize⟩
      :: chunkBatchArrays (termIds.drop maxChunkSize) (curveIds.drop maxChunkSize)
        (values.drop maxChunkSize) (minValues.drop maxChunkSize) maxChunkSize
termination_by termIds.length
decreasing_by
  push_neg at h
  obtain ⟨hx, hs⟩ := h
  have hlen : 0 < termIds.length := List.length_pos.mpr hx
  simp only [List.length_drop]
  omega

/-! ## ContractPreviewClient
`previewDepositBatch` / `previewRedeemBatch` are exported by
`apps/web/src/hooks/blockchain/batch/utils.ts` and exercised by
`utils.test.ts`, but the implementation part of that module is not present
under `src/`; both are modelled from the spec. The multicall outcome is an
explicit argument: `.error` is a transport failure of the whole multicall,
a `none` element is a per-element contract failure, and `some (v, vAfterFees)`
is the per-element result pair (shares for deposits, assets for redeems). -/

/-- Modelled from the spec: `previewDepositBatch` issues one multicall for
the whole batch, returns the previewed shares per element, maps a failed
element to the sentinel `0`, degrades to an all-zero vector when the
multicall itself fails, and short-circuits an empty batch without calling
the chain. -/
def previewDepositBatch (termIds : List String) (curveIds : List Nat)
    (amounts : List Nat)
    (multicallOutcome : Except Unit (List (Option (Nat × Nat)))) : List Nat :=
  if termIds.isEmpty then []
  else
    match multicallOutcome with
    | .error _ => List.replicate termIds.length 0
    | .ok results =>
      results.map (fun r =>
        match r with
        | some pair => pair.1
        | none => 0)

/-- Modelled from the spec: `previewRedeemBatch`, same shape as
`previewDepositBatch` with previewed assets per redeemed share amount. -/
def previewRedeemBatch (termIds : List String) (curveIds : List Nat)
    (shares : List Nat)
    (multicallOutcome : Except Unit (List (Option (Nat × Nat)))) : List Nat :=
  if termIds.isEmpty then []
  else
    match multicallOutcome with
    | .error _ => List.replicate termIds.length 0
    | .ok results =>
      results.map (fun r =>
        match r with
        | some pair => pair.1
        | none => 0)

/-! ## RedeemOrchestrator
Embeds `executeRedeems` from
`apps/web/src/hooks/blockchain/batch/executeRedeems.ts`. The
`getPositionShares` contract read becomes the lookup argument
`liveShares : termId → curveId → shares` (the owner address is fixed for the
whole call). The pure core builds the redeem batch; chunked transaction
submission is transport and returns the last hash, which the model elides. -/

/-- One candidate redeem entry per the spec's description: an item
participates exactly when it carries a position snapshot and its live
on-chain balance is strictly positive. -/
def specRedeemEntry (liveShares : String → Nat → Nat)
    (item : ProcessableCartItem) : Option (String × Nat × Nat) :=
  match item.currentPosition with
  | none => none
  | some pos =>
    let redeemTermId := if pos.direction == .forD then item.termId else item.counterTermId
    if 0 < liveShares redeemTermId pos.curveId then
      some (redeemTermId, pos.curveId, liveShares redeemTermId pos.curveId)
    else none

/-- The verification loop of `executeRedeems`: skip items without a
position snapshot, re-read the live shares for the rest, skip (with a
warning log) those whose live balance is not positive, and collect
`(termId, curveId, actualShares)` for the others in cart order. -/
def buildRedeemBatch (liveShares : String → Nat → Nat) :
    List ProcessableCartItem → List (String × Nat × Nat)
  | [] => []
  | item :: rest =>
    match item.currentPosition with
    | none => buildRedeemBatch liveShares rest
    | some pos =>
      let redeemTermId := if pos.direction == .forD then item.termId else item.counterTermId
      let actualShares := liveShares redeemTermId pos.curveId
      if actualShares ≤ 0 then buildRedeemBatch liveShares rest
      else (redeemTermId, pos.curveId, actualShares) :: buildRedeemBatch liveShares rest

/-- What `executeRedeems` returns apart from the transaction hash: the
planned redeem batch and the total of redeemed shares. -/
structure RedeemResult where
  batch : List (String × Nat × Nat)
  totalRedeemed : Nat
deriving DecidableEq, Repr

def executeRedeems (liveShares : String → Nat → Nat)
    (items : List ProcessableCartItem) : Option RedeemResult :=
  let batch := buildRedeemBatch liveShares items
  -- nothing to redeem: return null without submitting any transaction
  if batch.length = 0 then none
  else some ⟨batch, (batch.map (fun e => e.2.2)).sum⟩

/-! ## Pre-flight cost check of `createTriple`
Embeds the validation block of `createTriple` in
`apps/web/src/hooks/useIntuition.ts`: the minimum-deposit check runs FIRST
("Check minDeposit FIRST" in the source), then the wallet balance is
compared against `totalRequired = tripleBaseCost + depositAmountWei` and an
insufficient balance reports the deficit `totalRequired - walletBalance`. -/

inductive CreateTripleCheck where
  | depositTooLow (minDeposit deposit : Nat)
  | insufficientBalance (deficit : Nat)
deriving DecidableEq, Repr

def checkCreateTripleFunds (tripleBaseCost minDeposit depositAmountWei
    walletBalance : Nat) : Option CreateTripleCheck :=
  let totalRequired := tripleBaseCost + depositAmountWei
  if depositAmountWei < minDeposit then
    some (.depositTooLow minDeposit depositAmountWei)
  else if walletBalance < totalRequired then
    some (.insufficientBalance (totalRequired - walletBalance))
  else
    none

end Overmind

namespace Overmind

/-- C1: `calculateTotalTransactions` agrees with the spec's step formula
`max(2*hasNewTotems + (1 if linear-for-only else 2)*hasNewTriples + 1*hasRedeems
+ (3 if any uninitialized progressive-oppose else 1)*hasExistingTriples, 1)`
on every input, and in particular returns 1 on the all-false input, 3 for a
new totem plus linear-support-only new triple, 4 for a new totem plus
mixed-curve new triple, and 3 for an existing-triple deposit with an
uninitialized progressive-oppose vault. -/
theorem calculateTotalTransactions_matches_spec :
    (∀ params : TransactionCountParams,
      calculateTotalTransactions params = specTotalSteps params)
    ∧ calculateTotalTransactions ⟨false, false, false, false, false, 0⟩ = 1
    ∧ calculateTotalTransactions ⟨true, true, false, false, true, 0⟩ = 3
    ∧ calculateTotalTransactions ⟨true, true, false, false, false, 0⟩ = 4
    ∧ calculateTotalTransactions ⟨false, false, false, true, false, 1⟩ = 3 := by
  refine ⟨?_, by decide, by decide, by decide, by decide⟩
  rintro ⟨a, b, c, d, e, n⟩
  rcases Nat.eq_zero_or_pos n with hn | hn <;>
    cases a <;> cases b <;> cases c <;> cases d <;> cases e <;>
      simp_all [calculateTotalTransactions, specTotalSteps]

/-- C4: `applySlippage x t` equals `x * (10000 - t) / 10000` with truncating
integer division for every tolerance `t ≤ 10000`; consequently
`applySlippage x 0 = x`, `applySlippage x 10000 = 0`, and
`applySlippage 1000 200 = 980`. -/
theorem applySlippage_spec :
    (∀ x t : Nat, t ≤ 10000 → applySlippage x t = x * (10000 - t) / 10000)
    ∧ (∀ x : Nat, applySlippage x 0 = x)
    ∧ (∀ x : Nat, applySlippage x 10000 = 0)
    ∧ applySlippage 1000 200 = 980 := by
  refine ⟨fun x t _ => rfl, fun x => ?_, fun x => ?_, by decide⟩
  · show x * 10000 / 10000 = x
    exact Nat.mul_div_cancel x (by norm_num)
  · show x * (10000 - 10000) / 10000 = 0
    simp

theorem applySlippage_spec_witness :
    (200 : Nat) ≤ 10000 ∧ applySlippage 1000 200 = 1000 * (10000 - 200) / 10000 :=
  ⟨by decide, applySlippage_spec.1 1000 200 (by decide)⟩

/-- C6: `autoAdjustAmount` returns `minRequired` exactly when the amount is
below the minimum and the shortfall is at most the wei tolerance; in every
other case (amount already sufficient, or shortfall exceeding the
tolerance) it returns the amount unchanged — it never rounds up past the
tolerance. -/
theorem autoAdjustAmount_spec :
    ∀ (tol amount minRequired : Nat) (name : String),
      (amount < minRequired → minRequired - amount ≤ tol →
        autoAdjustAmount tol amount minRequired name = minRequired)
      ∧ (minRequired ≤ amount →
        autoAdjustAmount tol amount minRequired name = amount)
      ∧ (amount < minRequired → tol < minRequired - amount →
        autoAdjustAmount tol amount minRequired name = amount) := by
  intro tol amount minRequired name
  refine ⟨fun h1 h2 => ?_, fun h => ?_, fun h1 h2 => ?_⟩ <;>
    simp only [autoAdjustAmount] <;> split <;> (try split) <;> omega

theorem autoAdjustAmount_spec_witness :
    ((998 : Nat) < 1000 → (1000 : Nat) - 998 ≤ 5 →
      autoAdjustAmount 5 998 1000 "item" = 1000)
    ∧ autoAdjustAmount 5 998 1000 "item" = 1000 :=
  ⟨(autoAdjustAmount_spec 5 998 1000 "item").1,
   (autoAdjustAmount_spec 5 998 1000 "item").1 (by decide) (by decide)⟩

/-- C10: `checkVaultInitialized` returns `true` exactly when the `getVault`
read succeeds and the returned `totalShares` (second component) is strictly
positive; any failed read yields `false`, conservatively treating an
unreadable vault as uninitialized. -/
theorem checkVaultInitialized_spec :
    ∀ vaultRead : Except Unit (Nat × Nat),
      (checkVaultInitialized vaultRead = true ↔
        ∃ totalAssets totalShares : Nat,
          vaultRead = .ok (totalAssets, totalShares) ∧ 0 < totalShares)
      ∧ (∀ e : Unit, vaultRead = .error e → checkVaultInitialized vaultRead = false) := by
  intro vaultRead
  constructor
  · cases vaultRead with
    | ok p =>
      simp only [checkVaultInitialized, decide_eq_true_eq]
      constructor
      · intro hp
        exact ⟨p.1, p.2, by simp, hp⟩
      · rintro ⟨ta, ts, hok, hts⟩
        cases hok
        exact hts
    | error e =>
      simp [checkVaultInitialized]
  · intro e he
    subst he
    rfl

theorem checkVaultInitialized_spec_witness :
    checkVaultInitialized (.ok (7, 3)) = true ∧
      checkVaultInitialized (.error ()) = false :=
  ⟨((checkVaultInitialized_spec (.ok (7, 3))).1).2 ⟨7, 3, rfl, by decide⟩,
   ((checkVaultInitialized_spec (.error ())).2) () rfl⟩

/-- Ceiling-division unfolds by one chunk: for `0 < n`,
`ceil(n/k) = ceil((n-k)/k) + 1`. -/
theorem ceil_div_step (n k : Nat) (hk : 0 < k) (hn : 0 < n) :
    (n + k - 1) / k = (n - k + k - 1) / k + 1 := by
  rcases le_or_lt n k with h | h
  · have h1 : n - k = 0 := by omega
    rw [h1]
    have h2 : (0 + k - 1) / k = 0 := Nat.div_eq_of_lt (by omega)
    rw [h2]
    have h3 : n + k - 1 = (n - 1) + k := by omega
    rw [h3, Nat.add_div_right _ hk]
    have h4 : (n - 1) / k = 0 := Nat.div_eq_of_lt (by omega)
    omega
  · have h3 : n + k - 1 = (n - 1) + k := by omega
    rw [h3, Nat.add_div_right _ hk]
    have h4 : n - k + k - 1 = (n - k - 1) + k := by omega
    rw [h4, Nat.add_div_right _ hk]
    have h5 : n - 1 = (n - k - 1) + k := by omega
    rw [h5, Nat.add_div_right _ hk]

/-- The number of chunks is the ceiling of `n / k`. -/
theorem chunkBatchArrays_length (t : List String) (c v m : List Nat) (k : Nat)
    (hk : 0 < k) :
    (chunkBatchArrays t c v m k).length = (t.length + k - 1) / k := by
  induction t, c, v, m, k using chunkBatchArrays.induct with
  | case1 t c v m k h =>
    rw [chunkBatchArrays]
    simp only [dif_pos h]
    rcases h with h | h
    · subst h
      simp [Nat.div_eq_of_lt (by omega : k - 1 < k)]
    · omega
  | case2 t c v m k h ih =>
    rw [chunkBatchArrays]
    simp only [dif_neg h, List.length_cons]
    push_neg at h
    have hn : 0 < t.length := List.length_pos.mpr h.1
    rw [ih hk, List.length_drop, ceil_div_step t.length k hk hn]

/-- Concatenating the chunks in order reconstructs each of the four
original arrays exactly. -/
theorem chunkBatchArrays_flatten (t : List String) (c v m : List Nat) (k : Nat)
    (hk : 0 < k) (hc : c.length = t.length) (hv : v.length = t.length)
    (hm : m.length = t.length) :
    ((chunkBatchArrays t c v m k).map BatchChunk.termIds).flatten = t
    ∧ ((chunkBatchArrays t c v m k).map BatchChunk.curveIds).flatten = c
    ∧ ((chunkBatchArrays t c v m k).map BatchChunk.values).flatten = v
    ∧ ((chunkBatchArrays t c v m k).map BatchChunk.minValues).flatten = m := by
  induction t, c, v, m, k using chunkBatchArrays.induct with
  | case1 t c v m k h =>
    rw [chunkBatchArrays]
    simp only [dif_pos h]
    rcases h with h | h
    · subst h
      have hc0 : c = [] := List.eq_nil_of_length_eq_zero (by simpa using hc)
      have hv0 : v = [] := List.eq_nil_of_length_eq_zero (by simpa using hv)
      have hm0 : m = [] := List.eq_nil_of_length_eq_zero (by simpa using hm)
      simp [hc0, hv0, hm0]
    · omega
  | case2 t c v m k h ih =>
    rw [chunkBatchArrays]
    simp only [dif_neg h, List.map_cons, List.flatten]
    have hdc : (c.drop k).length = (t.drop k).length := by
      simp [List.length_drop, hc]
    have hdv : (v.drop k).length = (t.drop k).length := by
      simp [List.length_drop, hv]
    have hdm : (m.drop k).length = (t.drop k).length := by
      simp [List.length_drop, hm]
    obtain ⟨i1, i2, i3, i4⟩ := ih hk hdc hdv hdm
    rw [i1, i2, i3, i4]
    simp [List.take_append_drop]

/-- Within every chunk the four parallel arrays have the same length, which
never exceeds the chunk size. -/
theorem chunkBatchArrays_chunk_lengths (t : List String) (c v m : List Nat)
    (k : Nat) (hc : c.length = t.length) (hv : v.length = t.length)
    (hm : m.length = t.length) :
    ∀ ch ∈ chunkBatchArrays t c v m k,
      ch.curveIds.length = ch.termIds.length
      ∧ ch.values.length = ch.termIds.length
      ∧ ch.minValues.length = ch.termIds.length
      ∧ ch.termIds.length ≤ k := by
  induction t, c, v, m, k using chunkBatchArrays.induct with
  | case1 t c v m k h =>
    rw [chunkBatchArrays]
    simp [dif_pos h]
  | case2 t c v m k h ih =>
    rw [chunkBatchArrays]
    simp only [dif_neg h, List.mem_cons]
    intro ch hch
    rcases hch with hch | hch
    · subst hch
      simp only [List.length_take]
      omega
    · have hdc : (c.drop k).length = (t.drop k).length := by
        simp [List.length_drop, hc]
      have hdv : (v.drop k).length = (t.drop k).length := by
        simp [List.length_drop, hv]
      have hdm : (m.drop k).length = (t.drop k).length := by
        simp [List.length_drop, hm]
      exact ih hdc hdv hdm ch hch

/-- The chunk list is empty exactly for an empty input (or a zero chunk
size, which the spec excludes). -/
theorem chunkBatchArrays_eq_nil_iff (t : List String) (c v m : List Nat)
    (k : Nat) :
    chunkBatchArrays t c v m k = [] ↔ (t = [] ∨ k = 0) := by
  rw [chunkBatchArrays]
  split <;> simp_all

/-- Every chunk except possibly the final one is full: only the final chunk
may be shorter than the chunk size. -/
theorem chunkBatchArrays_full_chunks (t : List String) (c v m : List Nat)
    (k : Nat) :
    ∀ ch ∈ (chunkBatchArrays t c v m k).dropLast, ch.termIds.length = k := by
  induction t, c, v, m, k using chunkBatchArrays.induct with
  | case1 t c v m k h =>
    rw [chunkBatchArrays]
    simp [dif_pos h]
  | case2 t c v m k h ih =>
    rw [chunkBatchArrays]
    simp only [dif_neg h]
    rcases heq : chunkBatchArrays (t.drop k) (c.drop k) (v.drop k) (m.drop k) k
      with _ | ⟨hd, tl⟩
    · simp
    · rw [List.dropLast_cons_of_ne_nil (by simp)]
      intro ch hch
      rcases List.mem_cons.mp hch with hch | hch
      · subst hch
        have hne : ¬(t.drop k = [] ∨ k = 0) := by
          intro hcontra
          rw [← chunkBatchArrays_eq_nil_iff
            (t.drop k) (c.drop k) (v.drop k) (m.drop k) k] at hcontra
          rw [heq] at hcontra
          exact List.cons_ne_nil _ _ hcontra
        push_neg at hne
        have hklt : k < t.length := by
          have := List.length_pos.mpr hne.1
          simp [List.length_drop] at this
          omega
        simp only [List.length_take]
        omega
      · rw [← heq] at hch
        exact ih ch hch

/-- C3: for four parallel arrays of equal length `n` and chunk size `k > 0`,
`chunkBatchArrays` produces exactly `ceil(n/k)` chunks; within every chunk
the four arrays have equal length; concatenating the chunks in order
reconstructs each original array exactly (no reordering); every non-final
chunk is exactly `k` long, so only the final chunk may be shorter; and an
empty input yields the empty chunk list, not a singleton empty chunk. -/
theorem chunkBatchArrays_spec :
    ∀ (t : List String) (c v m : List Nat) (k : Nat),
      0 < k → c.length = t.length → v.length = t.length → m.length = t.length →
        (chunkBatchArrays t c v m k).length = (t.length + k - 1) / k
        ∧ (∀ ch ∈ chunkBatchArrays t c v m k,
            ch.curveIds.length = ch.termIds.length
            ∧ ch.values.length = ch.termIds.length
            ∧ ch.minValues.length = ch.termIds.length
            ∧ ch.termIds.length ≤ k)
        ∧ ((chunkBatchArrays t c v m k).map BatchChunk.termIds).flatten = t
        ∧ ((chunkBatchArrays t c v m k).map BatchChunk.curveIds).flatten = c
        ∧ ((chunkBatchArrays t c v m k).map BatchChunk.values).flatten = v
        ∧ ((chunkBatchArrays t c v m k).map BatchChunk.minValues).flatten = m
        ∧ (∀ ch ∈ (chunkBatchArrays t c v m k).dropLast, ch.termIds.length = k)
        ∧ (t = [] → chunkBatchArrays t c v m k = []) := by
  intro t c v m k hk hc hv hm
  obtain ⟨j1, j2, j3, j4⟩ := chunkBatchArrays_flatten t c v m k hk hc hv hm
  exact ⟨chunkBatchArrays_length t c v m k hk,
    chunkBatchArrays_chunk_lengths t c v m k hc hv hm,
    j1, j2, j3, j4,
    chunkBatchArrays_full_chunks t c v m k,
    fun ht => (chunkBatchArrays_eq_nil_iff t c v m k).mpr (Or.inl ht)⟩

theorem chunkBatchArrays_spec_witness :
    (chunkBatchArrays ["0x01", "0x02", "0x03", "0x04", "0x05"]
        [1, 2, 1, 2, 1] [100, 200, 300, 400, 500] [10, 20, 30, 40, 50] 2).length =
      ((["0x01", "0x02", "0x03", "0x04", "0x05"] : List String).length + 2 - 1) / 2 :=
  (chunkBatchArrays_spec ["0x01", "0x02", "0x03", "0x04", "0x05"]
    [1, 2, 1, 2, 1] [100, 200, 300, 400, 500] [10, 20, 30, 40, 50] 2
    (by decide) rfl rfl rfl).1

theorem insertTripleItem_cons_pos (item : ProcessableCartItem)
    (kv : String × UniqueTriple) (rest : List (String × UniqueTriple))
    (h : kv.1 = tripleKey item) :
    insertTripleItem item (kv :: rest) =
      (kv.1, { kv.2 with items := kv.2.items ++ [item] }) :: rest := by
  simp [insertTripleItem, h]

theorem insertTripleItem_cons_neg (item : ProcessableCartItem)
    (kv : String × UniqueTriple) (rest : List (String × UniqueTriple))
    (h : ¬kv.1 = tripleKey item) :
    insertTripleItem item (kv :: rest) = kv :: insertTripleItem item rest := by
  simp [insertTripleItem, h]

theorem insertTripleItem_keys (item : ProcessableCartItem)
    (acc : List (String × UniqueTriple)) :
    (insertTripleItem item acc).map Prod.fst =
      if tripleKey item ∈ acc.map Prod.fst then acc.map Prod.fst
      else acc.map Prod.fst ++ [tripleKey item] := by
  induction acc with
  | nil => simp [insertTripleItem]
  | cons kv rest ih =>
    by_cases heq : kv.1 = tripleKey item
    · rw [insertTripleItem_cons_pos item kv rest heq]
      have hmem : tripleKey item ∈ (kv :: rest).map Prod.fst := by
        simp [heq.symm]
      rw [if_pos hmem]
      simp
    · rw [insertTripleItem_cons_neg item kv rest heq]
      by_cases hmem : tripleKey item ∈ rest.map Prod.fst
      · have hmem2 : tripleKey item ∈ (kv :: rest).map Prod.fst := by
          simp [hmem]
        rw [if_pos hmem2]
        simp only [List.map_cons, ih, if_pos hmem]
      · have hmem2 : tripleKey item ∉ (kv :: rest).map Prod.fst := by
          simp only [List.map_cons, List.mem_cons]
          push_neg
          exact ⟨fun hcontra => heq hcontra.symm, hmem⟩
        rw [if_neg hmem2]
        simp only [List.map_cons, ih, if_neg hmem, List.cons_append]

theorem insertTripleItem_flatten_perm (item : ProcessableCartItem)
    (acc : List (String × UniqueTriple)) :
    ((insertTripleItem item acc).map (fun kv => kv.2.items)).flatten.Perm
      ((acc.map (fun kv => kv.2.items)).flatten ++ [item]) := by
  induction acc with
  | nil => simp [insertTripleItem]
  | cons kv rest ih =>
    by_cases heq : kv.1 = tripleKey item
    · rw [insertTripleItem_cons_pos item kv rest heq]
      simp only [List.map_cons, List.flatten_cons, List.append_assoc]
      exact List.perm_append_comm.append_left kv.2.items
    · rw [insertTripleItem_cons_neg item kv rest heq]
      simp only [List.map_cons, List.flatten_cons, List.append_assoc]
      exact ih.append_left kv.2.items

theorem dedup_keys_fold (l : List ProcessableCartItem) :
    ∀ acc : List (String × UniqueTriple),
      (l.foldl (fun a i => insertTripleItem i a) acc).map Prod.fst =
        (l.map tripleKey).foldl (fun ks k => if k ∈ ks then ks else ks ++ [k])
          (acc.map Prod.fst) := by
  induction l with
  | nil => intro acc; rfl
  | cons x xs ih =>
    intro acc
    simp only [List.foldl_cons, List.map_cons]
    rw [ih, insertTripleItem_keys]

theorem dedup_flatten_perm_fold (l : List ProcessableCartItem) :
    ∀ acc : List (String × UniqueTriple),
      ((l.foldl (fun a i => insertTripleItem i a) acc).map
        (fun kv => kv.2.items)).flatten.Perm
        ((acc.map (fun kv => kv.2.items)).flatten ++ l) := by
  induction l with
  | nil => intro acc; simp
  | cons x xs ih =>
    intro acc
    simp only [List.foldl_cons]
    have h1 := ih (insertTripleItem x acc)
    have h2 := (insertTripleItem_flatten_perm x acc).append_right xs
    have h3 := h1.trans h2
    have h4 : ((acc.map (fun kv => kv.2.items)).flatten ++ [x]) ++ xs
        = (acc.map (fun kv => kv.2.items)).flatten ++ (x :: xs) := by
      simp
    rw [h4] at h3
    exact h3

theorem insertTripleItem_itemsMatchKey (item : ProcessableCartItem)
    (acc : List (String × UniqueTriple)) (h : itemsMatchKey acc) :
    itemsMatchKey (insertTripleItem item acc) := by
  induction acc with
  | nil =>
    intro kv hkv y hy
    simp only [insertTripleItem, List.mem_singleton] at hkv
    subst hkv
    simp only [List.mem_singleton] at hy
    subst hy
    rfl
  | cons kv rest ih =>
    have hrest : itemsMatchKey rest := fun a ha => h a (List.mem_cons_of_mem kv ha)
    have hkv0 : ∀ y ∈ kv.2.items, tripleKey y = kv.1 := h kv (List.mem_cons_self kv rest)
    by_cases heq : kv.1 = tripleKey item
    · rw [insertTripleItem_cons_pos item kv rest heq]
      intro kw hkw y hy
      rcases List.mem_cons.mp hkw with hkw | hkw
      · subst hkw
        simp only [List.mem_append, List.mem_singleton] at hy
        rcases hy with hy | hy
        · exact hkv0 y hy
        · subst hy
          exact heq.symm
      · exact hrest kw hkw y hy
    · rw [insertTripleItem_cons_neg item kv rest heq]
      intro kw hkw y hy
      rcases List.mem_cons.mp hkw with hkw | hkw
      · subst hkw
        exact hkv0 y hy
      · exact ih hrest kw hkw y hy

theorem dedup_itemsMatchKey_fold (l : List ProcessableCartItem) :
    ∀ acc : List (String × UniqueTriple), itemsMatchKey acc →
      itemsMatchKey (l.foldl (fun a i => insertTripleItem i a) acc) := by
  induction l with
  | nil => intro acc h; exact h
  | cons x xs ih =>
    intro acc h
    exact ih _ (insertTripleItem_itemsMatchKey x acc h)

theorem dedup_keys_nodup_fold (l : List ProcessableCartItem) :
    ∀ acc : List (String × UniqueTriple), (acc.map Prod.fst).Nodup →
      ((l.foldl (fun a i => insertTripleItem i a) acc).map Prod.fst).Nodup := by
  induction l with
  | nil => intro acc h; exact h
  | cons x xs ih =>
    intro acc h
    apply ih
    rw [insertTripleItem_keys]
    by_cases hmem : tripleKey x ∈ acc.map Prod.fst
    · simp [hmem, h]
    · simp [hmem, h, List.nodup_append]

theorem entry_eq_of_key_eq (l : List (String × UniqueTriple))
    (hnd : (l.map Prod.fst).Nodup) :
    ∀ kv1 ∈ l, ∀ kv2 ∈ l, kv1.1 = kv2.1 → kv1 = kv2 := by
  induction l with
  | nil => intro kv1 h1; simp at h1
  | cons kv rest ih =>
    simp only [List.map_cons, List.nodup_cons] at hnd
    intro kv1 h1 kv2 h2 hkey
    rcases List.mem_cons.mp h1 with ha | ha
    · rcases List.mem_cons.mp h2 with hb | hb
      · rw [ha, hb]
      · exfalso
        apply hnd.1
        rw [← ha, hkey]
        exact List.mem_map_of_mem Prod.fst hb
    · rcases List.mem_cons.mp h2 with hb | hb
      · exfalso
        apply hnd.1
        rw [← hb, ← hkey]
        exact List.mem_map_of_mem Prod.fst ha
      · exact ih hnd.2 kv1 ha kv2 hb hkey

/-- C5: `deduplicateToTriples` partitions the cart items into groups keyed
by `(predicateId, totemId)`: the groups' item counts sum to the cart's item
count; the concatenation of the groups is a permutation of the cart (so no
item lands in two groups); two groups containing items with the same
`(predicateId, totemId)` are the same group; and the map iterates its keys
in order of first appearance in the cart. -/
theorem deduplicateToTriples_spec :
    ∀ (founderId : String) (items : List ProcessableCartItem),
      ((deduplicateToTriples founderId items).map (fun kv => kv.2.items.length)).sum
          = items.length
      ∧ ((deduplicateToTriples founderId items).map
          (fun kv => kv.2.items)).flatten.Perm items
      ∧ (∀ kv1 ∈ deduplicateToTriples founderId items,
          ∀ kv2 ∈ deduplicateToTriples founderId items,
            (∃ x ∈ kv1.2.items, ∃ y ∈ kv2.2.items,
              x.predicateId = y.predicateId ∧ x.totemId = y.totemId) → kv1 = kv2)
      ∧ (deduplicateToTriples founderId items).map Prod.fst
          = firstAppearanceKeys (items.map tripleKey) := by
  intro founderId items
  have hperm :
      ((deduplicateToTriples founderId items).map
        (fun kv => kv.2.items)).flatten.Perm items := by
    have h := dedup_flatten_perm_fold items []
    simpa [deduplicateToTriples] using h
  have hmatch : itemsMatchKey (deduplicateToTriples founderId items) := by
    apply dedup_itemsMatchKey_fold
    intro kv hkv
    simp at hkv
  have hnd : ((deduplicateToTriples founderId items).map Prod.fst).Nodup := by
    apply dedup_keys_nodup_fold
    simp
  refine ⟨?_, hperm, ?_, ?_⟩
  · have hlen := hperm.length_eq
    rw [List.length_flatten] at hlen
    simpa [List.map_map, Function.comp] using hlen
  · intro kv1 h1 kv2 h2 hex
    obtain ⟨x, hx, y, hy, hpred, htot⟩ := hex
    have hkeyxy : tripleKey x = tripleKey y := by
      simp [tripleKey, hpred, htot]
    have hk1 : tripleKey x = kv1.1 := hmatch kv1 h1 x hx
    have hk2 : tripleKey y = kv2.1 := hmatch kv2 h2 y hy
    exact entry_eq_of_key_eq _ hnd kv1 h1 kv2 h2 (by rw [← hk1, ← hk2, hkeyxy])
  · have h := dedup_keys_fold items []
    simpa [deduplicateToTriples, firstAppearanceKeys] using h

theorem deduplicateToTriples_spec_witness :
    ((deduplicateToTriples "0xfounder"
        [⟨"p1", "t1", "Totem One", 1, "0xa", "0xb", none⟩,
         ⟨"p1", "t1", "Totem One", 2, "0xa", "0xb", none⟩,
         ⟨"p2", "t2", "Totem Two", 1, "0xc", "0xd", none⟩]).map
      (fun kv => kv.2.items.length)).sum =
      ([⟨"p1", "t1", "Totem One", 1, "0xa", "0xb", none⟩,
        ⟨"p1", "t1", "Totem One", 2, "0xa", "0xb", none⟩,
        ⟨"p2", "t2", "Totem Two", 1, "0xc", "0xd", none⟩] :
          List ProcessableCartItem).length :=
  (deduplicateToTriples_spec "0xfounder" _).1


/-- Fusing `filter` into `any`: scanning a pre-filtered list is the same as
scanning the whole list with the filter condition conjoined. -/
theorem any_filter_fuse {α : Type} (l : List α) (p f : α → Bool) :
    (l.filter p).any f = l.any (fun a => p a && f a) := by
  induction l with
  | nil => rfl
  | cons hd tl ih =>
    simp only [List.filter_cons, List.any_cons]
    cases h : p hd <;> simp [h, ih]

/-- C2: for a requested direction of support or oppose, the resolver marks a
curve available exactly when that curve has neither an opposite-direction
on-chain position nor an opposite-direction cart item for the selected
totem (boolean equation, i.e. `available ↔ ¬(oppositePosition ∨
oppositeCartItem)`); `allBlocked` holds exactly when both curves are
blocked; and when no curve has any opposite position or cart item, both
curves are available and `allBlocked` is `false`. -/
theorem useCurveAvailability_spec :
    ∀ (p : UseCurveAvailabilityParams) (dir : ReqDirection),
      requestedDirection p.voteDirection = some dir →
        ((useCurveAvailability p).linear =
          !(hasOppositePositionOn p dir CURVE_LINEAR
            || hasOppositeCartItemOn p dir CURVE_LINEAR))
        ∧ ((useCurveAvailability p).progressive =
          !(hasOppositePositionOn p dir CURVE_PROGRESSIVE
            || hasOppositeCartItemOn p dir CURVE_PROGRESSIVE))
        ∧ ((useCurveAvailability p).allBlocked =
          (!(useCurveAvailability p).linear && !(useCurveAvailability p).progressive))
        ∧ ((hasOppositePositionOn p dir CURVE_LINEAR = false
            ∧ hasOppositeCartItemOn p dir CURVE_LINEAR = false
            ∧ hasOppositePositionOn p dir CURVE_PROGRESSIVE = false
            ∧ hasOppositeCartItemOn p dir CURVE_PROGRESSIVE = false) →
          ((useCurveAvailability p).linear = true
            ∧ (useCurveAvailability p).progressive = true
            ∧ (useCurveAvailability p).allBlocked = false)) := by
  intro p dir h
  obtain ⟨vd, fl, fp, al, ap, cart, sel⟩ := p
  have main :
      ((useCurveAvailability ⟨vd, fl, fp, al, ap, cart, sel⟩).linear =
        !(hasOppositePositionOn ⟨vd, fl, fp, al, ap, cart, sel⟩ dir CURVE_LINEAR
          || hasOppositeCartItemOn ⟨vd, fl, fp, al, ap, cart, sel⟩ dir CURVE_LINEAR))
      ∧ ((useCurveAvailability ⟨vd, fl, fp, al, ap, cart, sel⟩).progressive =
        !(hasOppositePositionOn ⟨vd, fl, fp, al, ap, cart, sel⟩ dir CURVE_PROGRESSIVE
          || hasOppositeCartItemOn ⟨vd, fl, fp, al, ap, cart, sel⟩ dir CURVE_PROGRESSIVE))
      ∧ ((useCurveAvailability ⟨vd, fl, fp, al, ap, cart, sel⟩).allBlocked =
        (!(useCurveAvailability ⟨vd, fl, fp, al, ap, cart, sel⟩).linear
          && !(useCurveAvailability ⟨vd, fl, fp, al, ap, cart, sel⟩).progressive)) := by
    cases vd with
    | none => simp [requestedDirection] at h
    | some v =>
      cases v with
      | withdrawD => simp [requestedDirection] at h
      | forD =>
        simp only [requestedDirection, Option.some.injEq] at h
        subst h
        cases cart <;> cases sel <;>
          simp [useCurveAvailability, hasOppositePositionOn, hasOppositeCartItemOn,
            CURVE_LINEAR, CURVE_PROGRESSIVE, any_filter_fuse, Bool.not_not, Bool.and_assoc]
      | againstD =>
        simp only [requestedDirection, Option.some.injEq] at h
        subst h
        cases cart <;> cases sel <;>
          simp [useCurveAvailability, hasOppositePositionOn, hasOppositeCartItemOn,
            CURVE_LINEAR, CURVE_PROGRESSIVE, any_filter_fuse, Bool.not_not, Bool.and_assoc]
  refine ⟨main.1, main.2.1, main.2.2, ?_⟩
  rintro ⟨h1, h2, h3, h4⟩
  rw [main.1, main.2.1, main.2.2, main.1, main.2.1, h1, h2, h3, h4]
  simp

theorem useCurveAvailability_spec_witness :
    (useCurveAvailability
        ⟨some .forD, false, false, false, false, none, none⟩).linear =
      !(hasOppositePositionOn
          ⟨some .forD, false, false, false, false, none, none⟩ .support CURVE_LINEAR
        || hasOppositeCartItemOn
          ⟨some .forD, false, false, false, false, none, none⟩ .support CURVE_LINEAR) :=
  (useCurveAvailability_spec
    ⟨some .forD, false, false, false, false, none, none⟩ .support rfl).1

/-- C7: for a well-formed multicall (as many per-element outcomes as batch
items), both preview functions return a vector of the batch's length; a
transport failure of the whole multicall yields the all-zero vector rather
than propagating; and elementwise, a failed element yields the sentinel `0`
at its index while successful elements keep their previewed values. -/
theorem previewBatch_spec :
    ∀ (termIds : List String) (curveIds amounts : List Nat)
      (outcome : Except Unit (List (Option (Nat × Nat)))),
      (∀ results, outcome = .ok results → results.length = termIds.length) →
        (previewDepositBatch termIds curveIds amounts outcome).length = termIds.length
        ∧ (∀ e, outcome = .error e →
            previewDepositBatch termIds curveIds amounts outcome =
              List.replicate termIds.length 0)
        ∧ (∀ results, outcome = .ok results → ∀ i : Nat,
            (previewDepositBatch termIds curveIds amounts outcome)[i]? =
              (results[i]?).map (fun r =>
                match r with
                | some pair => pair.1
                | none => 0))
        ∧ (previewRedeemBatch termIds curveIds amounts outcome).length = termIds.length
        ∧ (∀ e, outcome = .error e →
            previewRedeemBatch termIds curveIds amounts outcome =
              List.replicate termIds.length 0)
        ∧ (∀ results, outcome = .ok results → ∀ i : Nat,
            (previewRedeemBatch termIds curveIds amounts outcome)[i]? =
              (results[i]?).map (fun r =>
                match r with
                | some pair => pair.1
                | none => 0)) := by
  intro termIds curveIds amounts outcome hwf
  have hdep : previewDepositBatch termIds curveIds amounts outcome =
      previewRedeemBatch termIds curveIds amounts outcome := by
    rfl
  have base :
      (previewDepositBatch termIds curveIds amounts outcome).length = termIds.length
      ∧ (∀ e, outcome = .error e →
          previewDepositBatch termIds curveIds amounts outcome =
            List.replicate termIds.length 0)
      ∧ (∀ results, outcome = .ok results → ∀ i : Nat,
          (previewDepositBatch termIds curveIds amounts outcome)[i]? =
            (results[i]?).map (fun r =>
              match r with
              | some pair => pair.1
              | none => 0)) := by
    by_cases hemp : termIds.isEmpty
    · have hnil : termIds = [] := List.isEmpty_iff.mp hemp
      subst hnil
      refine ⟨by simp [previewDepositBatch], fun e he => by simp [previewDepositBatch], ?_⟩
      intro results hok i
      have hr : results = [] := List.eq_nil_of_length_eq_zero (hwf results hok)
      subst hr
      simp [previewDepositBatch]
    · cases outcome with
      | error e =>
        refine ⟨?_, ?_, ?_⟩
        · simp [previewDepositBatch, hemp]
        · intro e2 he2
          simp [previewDepositBatch, hemp]
        · intro results hok i
          simp at hok
      | ok results =>
        have hlen : results.length = termIds.length := hwf results rfl
        refine ⟨?_, ?_, ?_⟩
        · simp [previewDepositBatch, hemp, hlen]
        · intro e2 he2
          simp at he2
        · intro results2 hok i
          cases hok
          simp [previewDepositBatch, hemp, List.getElem?_map]
  rw [hdep] at base
  exact ⟨by rw [hdep]; exact base.1, by rw [hdep]; exact base.2.1,
    by rw [hdep]; exact base.2.2, base.1, base.2.1, base.2.2⟩

theorem previewBatch_spec_witness :
    (previewDepositBatch ["0x01", "0x02"] [1, 1] [100, 200]
        (.ok [some (500, 490), none]))[1]? =
      ((([some (500, 490), none] : List (Option (Nat × Nat)))[1]?).map (fun r =>
        match r with
        | some pair => pair.1
        | none => 0)) :=
  (previewBatch_spec ["0x01", "0x02"] [1, 1] [100, 200]
    (.ok [some (500, 490), none])
    (by intro results h; cases h; rfl)).2.2.1 [some (500, 490), none] rfl 1

/-- C8: `executeRedeems` re-reads the live balance for every item carrying a
position snapshot and builds the redeem batch exactly from the items whose
live balance is strictly positive, in cart order (items without a snapshot
or with zero live shares are skipped); it returns `none` — submitting no
transaction — precisely when every item is skipped. -/
theorem executeRedeems_spec :
    ∀ (liveShares : String → Nat → Nat) (items : List ProcessableCartItem),
      buildRedeemBatch liveShares items = items.filterMap (specRedeemEntry liveShares)
      ∧ (executeRedeems liveShares items = none ↔
          ∀ item ∈ items,
            item.currentPosition = none
            ∨ ∃ pos, item.currentPosition = some pos
              ∧ liveShares
                  (if pos.direction == .forD then item.termId else item.counterTermId)
                  pos.curveId = 0) := by
  intro liveShares items
  have hmain : buildRedeemBatch liveShares items =
      items.filterMap (specRedeemEntry liveShares) := by
    induction items with
    | nil => rfl
    | cons item rest ih =>
      cases hpos : item.currentPosition with
      | none =>
        simp only [buildRedeemBatch, hpos, List.filterMap_cons, specRedeemEntry, ih]
      | some pos =>
        simp only [buildRedeemBatch, hpos, List.filterMap_cons, specRedeemEntry]
        by_cases hzz : 0 < liveShares
            (if pos.direction == ItemDirection.forD then item.termId
              else item.counterTermId) pos.curveId
        · rw [if_neg (by omega), if_pos hzz, ih]
        · rw [if_pos (by omega), if_neg hzz]
          exact ih
  have hskip : ∀ item : ProcessableCartItem,
      specRedeemEntry liveShares item = none ↔
        item.currentPosition = none
        ∨ ∃ pos, item.currentPosition = some pos
          ∧ liveShares
              (if pos.direction == .forD then item.termId else item.counterTermId)
              pos.curveId = 0 := by
    intro item
    cases hpos : item.currentPosition with
    | none => simp [specRedeemEntry, hpos]
    | some pos =>
      simp only [specRedeemEntry, hpos]
      constructor
      · intro hnone
        by_cases hzz : 0 < liveShares
            (if pos.direction == ItemDirection.forD then item.termId
              else item.counterTermId) pos.curveId
        · rw [if_pos hzz] at hnone
          cases hnone
        · right
          exact ⟨pos, rfl, by omega⟩
      · rintro (hnone | ⟨p, hp, hzero⟩)
        · cases hnone
        · cases hp
          rw [if_neg (by omega)]
  constructor
  · exact hmain
  · constructor
    · intro hnone item hitem
      rw [← hskip item]
      have hb : buildRedeemBatch liveShares items = [] := by
        simp only [executeRedeems] at hnone
        by_contra hne
        rw [if_neg (by simpa [List.length_eq_zero] using hne)] at hnone
        cases hnone
      rw [hmain] at hb
      exact List.filterMap_eq_nil_iff.mp hb item hitem
    · intro hall
      have hb : items.filterMap (specRedeemEntry liveShares) = [] :=
        List.filterMap_eq_nil_iff.mpr (fun item hitem => (hskip item).mpr (hall item hitem))
      simp only [executeRedeems, hmain, hb]
      rfl

theorem executeRedeems_spec_witness :
    executeRedeems (fun _ _ => 0)
      [⟨"p1", "t1", "Totem One", 1, "0xa", "0xb", some ⟨.forD, 1, 500⟩⟩] = none :=
  (executeRedeems_spec (fun _ _ => 0)
    [⟨"p1", "t1", "Totem One", 1, "0xa", "0xb", some ⟨.forD, 1, 500⟩⟩]).2.mpr
    (by
      intro item hitem
      simp only [List.mem_singleton] at hitem
      subst hitem
      exact Or.inr ⟨⟨.forD, 1, 500⟩, rfl, rfl⟩)

/-- C9 counterexample: when the deposit is below the contract minimum AND
the wallet balance is below the total required amount, `createTriple` fails
with the deposit-too-low error, not with the insufficient-balance error the
claim requires for every balance shortfall (the source checks the minimum
deposit FIRST). Concretely: base cost 0.0005, minimum deposit 0.001,
deposit 0.0005, balance 0 (all in wei). -/
theorem checkCreateTripleFunds_counterexample :
    (0 : Nat) < 500000000000000 + 500000000000000
    ∧ checkCreateTripleFunds 500000000000000 1000000000000000 500000000000000 0 =
        some (.depositTooLow 1000000000000000 500000000000000)
    ∧ checkCreateTripleFunds 500000000000000 1000000000000000 500000000000000 0 ≠
        some (.insufficientBalance (500000000000000 + 500000000000000 - 0)) := by
  refine ⟨by norm_num, rfl, ?_⟩
  intro hcontra
  simp [checkCreateTripleFunds] at hcontra

/-- C9 (amended): provided the deposit meets the contract's minimum
deposit, a wallet balance below the total required amount (triple base cost
plus deposit) fails with the insufficient-balance error reporting the exact
deficit `totalRequired - balance`; in particular, a deposit of 0.002 with
base cost 0.0005 and balance 0.002 (minimum deposit 0.001, in wei) reports
a deficit of 0.0005. -/
theorem checkCreateTripleFunds_spec :
    (∀ tripleBaseCost minDeposit depositWei balance : Nat,
      minDeposit ≤ depositWei → balance < tripleBaseCost + depositWei →
        checkCreateTripleFunds tripleBaseCost minDeposit depositWei balance =
          some (.insufficientBalance (tripleBaseCost + depositWei - balance)))
    ∧ checkCreateTripleFunds 500000000000000 1000000000000000
        2000000000000000 2000000000000000 =
      some (.insufficientBalance 500000000000000) := by
  constructor
  · intro c m d b hmin hbal
    simp only [checkCreateTripleFunds]
    rw [if_neg (by omega), if_pos hbal]
  · rfl

theorem checkCreateTripleFunds_spec_witness :
    checkCreateTripleFunds 1 0 1 0 = some (.insufficientBalance 2) :=
  checkCreateTripleFunds_spec.1 1 0 1 0 (by decide) (by decide)

end Overmind
